import Mathlib

/-! telepathy-morse: the text channel adapter (`src/textchannel.cpp`).

A shallow embedding of `MorseTextChannel`.  The channel object becomes a record of its
member variables; every method becomes a pure function that returns the new record together
with the list of calls it made on the objects it talks to (the Telegram core, the messages
interface, the group interface, the chat-state interface), in program order.
-/

set_option autoImplicit false

/-! ## Qt value types -/

namespace QString

/-- The UTF-16 code units of one character, as `QString` stores it. -/
def utf16Units (c : Char) : List Nat :=
  if c.toNat < 0x10000 then [c.toNat]
  else [0xD800 + (c.toNat - 0x10000) / 0x400, 0xDC00 + (c.toNat - 0x10000) % 0x400]

/-- Lexicographic comparison of code-unit sequences. -/
def unitsLess : List Nat → List Nat → Bool
  | [], [] => false
  | [], _ :: _ => true
  | _ :: _, [] => false
  | a :: as, b :: bs => if a < b then true else if b < a then false else unitsLess as bs

/-- The order `operator<` of `QString`: code unit by code unit. -/
def lessThan (a b : String) : Bool :=
  unitsLess (a.data.flatMap utf16Units) (b.data.flatMap utf16Units)

/-- The static `QString::number(n)` for an unsigned integer, base 10. -/
def number (n : Nat) : String :=
  String.mk (Nat.toDigits 10 n)

/-- The method `QChar::isSpace()`: the control characters U+0009 to U+000D, U+0085, and the
characters of the Unicode separator categories. -/
def isSpace (c : Char) : Bool :=
  (decide (9 ≤ c.toNat) && decide (c.toNat ≤ 13)) || c.toNat = 0x20 || c.toNat = 0x85
    || c.toNat = 0xA0 || c.toNat = 0x1680
    || (decide (0x2000 ≤ c.toNat) && decide (c.toNat ≤ 0x200A))
    || c.toNat = 0x2028 || c.toNat = 0x2029 || c.toNat = 0x202F || c.toNat = 0x205F
    || c.toNat = 0x3000

/-- The value of a sequence of decimal digits, most significant first. -/
def digitsValue (cs : List Char) : Nat :=
  cs.foldl (fun acc c => acc * 10 + (c.toNat - '0'.toNat)) 0

/-- The optional plus sign in front of a number. -/
def dropPlusSign : List Char → List Char
  | '+' :: rest => rest
  | cs => cs

/-- The method `QString::toUInt()` with its default arguments (base 10, no `ok` pointer):
surrounding white space is skipped, one leading plus sign is accepted, and the result is 0
when the rest is not a non-empty run of decimal digits or does not fit in 32 bits. -/
def toUInt (s : String) : Nat :=
  let trimmed := ((s.data.dropWhile isSpace).reverse.dropWhile isSpace).reverse
  let digits := dropPlusSign trimmed
  if digits.isEmpty || !digits.all Char.isDigit then 0
  else if digitsValue digits < 2 ^ 32 then digitsValue digits
  else 0

end QString

/-- The payload of a `QDBusVariant`, as far as the channel looks at it. -/
inductive QVariant where
  | str (s : String)
  | uint (n : Nat)
  | int (i : Int)
  | other (asString : String)
  deriving DecidableEq

namespace QVariant

/-- A default-constructed variant is invalid; its string conversion is empty. -/
instance : Inhabited QVariant := ⟨other ""⟩

/-- The method `QVariant::toString()`.  A variant of another type carries the string its
conversion gives. -/
def toString : QVariant → String
  | str s => s
  | uint n => QString.number n
  | int i => if i < 0 then "-" ++ QString.number i.natAbs else QString.number i.toNat
  | other s => s

end QVariant

/-- The key order a `QMap` is kept in. -/
class QMapKey (κ : Type) where
  /-- The comparison `operator<` of the key type. -/
  lessThan : κ → κ → Bool

instance : QMapKey Nat := ⟨fun a b => decide (a < b)⟩

instance : QMapKey String := ⟨QString.lessThan⟩

/-- A `QMap<κ, α>`: the entries, in key order. -/
abbrev QMap (κ α : Type) := List (κ × α)

namespace QMap

variable {κ α : Type}

/-- The method `QMap::keys()`: the keys, in the order of the entries. -/
def keys (m : QMap κ α) : List κ :=
  m.map Prod.fst

/-- The method `QMap::contains(key)`. -/
def contains [DecidableEq κ] (m : QMap κ α) (k : κ) : Bool :=
  m.any (fun e => decide (e.1 = k))

/-- The method `QMap::value(key)`: the stored value, or a default-constructed one. -/
def value [DecidableEq κ] [Inhabited α] (m : QMap κ α) (k : κ) : α :=
  match m.find? (fun e => decide (e.1 = k)) with
  | some e => e.2
  | none => default

/-- The method `QMap::insert(key, value)` (also `map[key] = value`): a new entry goes to its
place in key order, an entry with an equal key has its value replaced. -/
def insert [DecidableEq κ] [QMapKey κ] (m : QMap κ α) (k : κ) (v : α) : QMap κ α :=
  match m with
  | [] => [(k, v)]
  | e :: rest =>
    if QMapKey.lessThan k e.1 then (k, v) :: e :: rest
    else if e.1 = k then (k, v) :: rest
    else e :: insert rest k v

/-- The method `QMap::remove(key)`. -/
def remove [DecidableEq κ] (m : QMap κ α) (k : κ) : QMap κ α :=
  m.filter (fun e => !decide (e.1 = k))

end QMap

/-- A `QTimer`: its interval and whether it is running. -/
structure QTimer where
  interval : Nat
  active : Bool
  deriving DecidableEq

/-! ## Telepathy types and constants -/

namespace Tp

/-- A `Tp::MessagePart`, a `QMap<QString, QDBusVariant>`. -/
abbrev MessagePart := QMap String QVariant

/-- A `Tp::MessagePartList`. -/
abbrev MessagePartList := List MessagePart

/-- Telepathy `Channel_Text_Message_Type` Normal. -/
def ChannelTextMessageTypeNormal : Nat := 0

/-- Telepathy `Channel_Text_Message_Type` Delivery_Report. -/
def ChannelTextMessageTypeDeliveryReport : Nat := 4

/-- Telepathy `Delivery_Status` Accepted. -/
def DeliveryStatusAccepted : Nat := 4

/-- Telepathy `Delivery_Status` Read. -/
def DeliveryStatusRead : Nat := 5

/-- Telepathy `Message_Sending_Flags` Report_Read. -/
def MessageSendingFlagReportRead : Nat := 2

/-- Telepathy `Channel_Chat_State` Active. -/
def ChannelChatStateActive : Nat := 2

/-- Telepathy `Channel_Chat_State` Composing. -/
def ChannelChatStateComposing : Nat := 4

end Tp

namespace TelegramNamespace

/-- The enumeration `TelegramNamespace::MessageDeliveryStatus`: the two enumerators the
channel names, and every other one under its numeric value. -/
inductive MessageDeliveryStatus where
  | MessageDeliveryStatusSent
  | MessageDeliveryStatusRead
  | otherStatus (code : Nat)
  deriving DecidableEq

end TelegramNamespace

/-- The part of `CTelegramCore` whose results the channel reads: the id `sendMessage`
returns and the typing repeat interval.  Its declarations are not part of the sources, so
both are arbitrary. -/
structure CTelegramCore where
  sendMessage : String → String → Nat
  localTypingRecommendedRepeatInterval : Nat

/-- A call the channel makes on one of the objects around it. -/
inductive Call where
  | sendMessage (phone message : String)
  | setMessageRead (phone : String) (messageId : Nat)
  | setTyping (phone : String) (typing : Bool)
  | chatStateChanged (handle state : Nat)
  | messageSent (parts : Tp.MessagePartList) (flags : Nat) (token : String)
  | addReceivedMessage (parts : Tp.MessagePartList)
  | addMembers (handles : List Nat) (identifiers : List String)
  | removeMembers (handles : List Nat)
  deriving DecidableEq

namespace Call

/-- Recognises `m_groupIface->addMembers(..)`. -/
def isAddMembers : Call → Bool
  | addMembers _ _ => true
  | _ => false

/-- Recognises `m_groupIface->removeMembers(..)`. -/
def isRemoveMembers : Call → Bool
  | removeMembers _ => true
  | _ => false

/-- Recognises `m_messagesIface->messageSent(..)`. -/
def isMessageSent : Call → Bool
  | messageSent _ _ _ => true
  | _ => false

/-- Recognises `addReceivedMessage(..)`. -/
def isAddReceivedMessage : Call → Bool
  | addReceivedMessage _ => true
  | _ => false

/-- Recognises `m_core->sendMessage(..)`. -/
def isSendMessage : Call → Bool
  | sendMessage _ _ => true
  | _ => false

/-- Recognises `m_core->setTyping(..)`. -/
def isSetTyping : Call → Bool
  | setTyping _ _ => true
  | _ => false

end Call

/-- The member variables of `MorseTextChannel`. -/
structure MorseTextChannel where
  m_targetHandle : Nat
  m_selfHandle : Nat
  m_targetID : String
  m_selfID : String
  m_participantHandles : QMap Nat String
  m_localTypingTimer : Option QTimer
  deriving DecidableEq

/-! ## The methods of `MorseTextChannel` -/

namespace MorseTextChannel

/-- The test of the loop in `sendMessageCallback`: the part has a content type, it reads
`text/plain`, and the part has a content. -/
def isPlainTextPart (part : Tp.MessagePart) : Bool :=
  QMap.contains part "content-type"
    && decide ((QMap.value part "content-type").toString = "text/plain")
    && QMap.contains part "content"

/-- The loop of `sendMessageCallback`: `content` starts out as an empty `QString`, the first
part that passes the test sets it and leaves the loop. -/
def plainTextContent : Tp.MessagePartList → String
  | [] => ""
  | part :: rest =>
    if isPlainTextPart part then (QMap.value part "content").toString
    else plainTextContent rest

/-- `MorseTextChannel::sendMessageCallback`: the token returned and the calls made. -/
def sendMessageCallback (core : CTelegramCore) (ch : MorseTextChannel)
    (messageParts : Tp.MessagePartList) (_flags : Nat) : String × List Call :=
  let content := plainTextContent messageParts
  (QString.number (core.sendMessage ch.m_targetID content),
   [Call.sendMessage ch.m_targetID content])

/-- `MorseTextChannel::messageAcknowledgedCallback`. -/
def messageAcknowledgedCallback (ch : MorseTextChannel) (messageId : String) : List Call :=
  [Call.setMessageRead ch.m_targetID (QString.toUInt messageId)]

/-- `MorseTextChannel::whenContactChatStateComposingChanged`. -/
def whenContactChatStateComposingChanged (ch : MorseTextChannel) (phone : String)
    (composing : Bool) : List Call :=
  if phone ≠ ch.m_targetID then []
  else if composing then [Call.chatStateChanged ch.m_targetHandle Tp.ChannelChatStateComposing]
  else [Call.chatStateChanged ch.m_targetHandle Tp.ChannelChatStateActive]

/-- `MorseTextChannel::processReceivedMessage`.  The value of the enumerator
`TelegramNamespace::MessageFlagOut` and the clock reading
`QDateTime::currentMSecsSinceEpoch()` are not in the sources and are passed in. -/
def processReceivedMessage (MessageFlagOut currentMSecsSinceEpoch : Nat) (ch : MorseTextChannel)
    (contactHandle : Nat) (contactID : String) (message : String)
    (messageId flags timestamp : Nat) : List Call :=
  let text : Tp.MessagePart :=
    QMap.insert (QMap.insert [] "content-type" (QVariant.str "text/plain"))
      "content" (QVariant.str message)
  let body : Tp.MessagePartList := [text]
  let token := QString.number messageId
  let header : Tp.MessagePart :=
    QMap.insert (QMap.insert (QMap.insert []
      "message-token" (QVariant.str token))
      "message-type" (QVariant.int Tp.ChannelTextMessageTypeNormal))
      "message-sent" (QVariant.uint timestamp)
  if flags &&& MessageFlagOut ≠ 0 then
    let header := QMap.insert (QMap.insert header
      "message-sender" (QVariant.uint ch.m_selfHandle))
      "message-sender-id" (QVariant.str ch.m_selfID)
    [Call.messageSent ([header] ++ body) 0 token]
  else
    let currentTimestamp := (currentMSecsSinceEpoch / 1000) % 2 ^ 32
    let header := QMap.insert (QMap.insert (QMap.insert header
      "message-received" (QVariant.uint currentTimestamp))
      "message-sender" (QVariant.uint contactHandle))
      "message-sender-id" (QVariant.str contactID)
    [Call.addReceivedMessage ([header] ++ body)]

/-- `MorseTextChannel::whenMessageReceived`. -/
def whenMessageReceived (MessageFlagOut currentMSecsSinceEpoch : Nat) (ch : MorseTextChannel)
    (message : String) (messageId flags timestamp : Nat) : List Call :=
  processReceivedMessage MessageFlagOut currentMSecsSinceEpoch ch ch.m_targetHandle
    ch.m_targetID message messageId flags timestamp

/-- The first block of `updateChatParticipants`, "process removed participants": the cached
handles the new list lacks are collected, and when there are any they are taken out of the
cache and reported in one `removeMembers` call. -/
def processRemovedParticipants (participants : QMap Nat String) (handles : List Nat) :
    QMap Nat String × List Call :=
  let removedHandles := (QMap.keys participants).filter (fun handle => !handles.contains handle)
  if !removedHandles.isEmpty then
    (removedHandles.foldl (fun m handle => QMap.remove m handle) participants,
     [Call.removeMembers removedHandles])
  else (participants, [])

/-- The `for` loop of the second block: position by position, a handle that
`previousHandles` lacks is inserted with the identifier at its position, and every handle is
appended to `addedHandles`. -/
def addedLoop (previousHandles : List Nat) :
    List Nat → List String → QMap Nat String × List Nat → QMap Nat String × List Nat
  | handle :: handles, identifier :: identifiers, (participants, addedHandles) =>
    addedLoop previousHandles handles identifiers
      (if !previousHandles.contains handle then QMap.insert participants handle identifier
        else participants,
       addedHandles ++ [handle])
  | _, _, acc => acc

/-- The second block of `updateChatParticipants`, "process added participants". -/
def processAddedParticipants (participants : QMap Nat String) (handles : List Nat)
    (identifiers : List String) : QMap Nat String × List Call :=
  let previousHandles := QMap.keys participants
  let (participants, addedHandles) := addedLoop previousHandles handles identifiers (participants, [])
  if !addedHandles.isEmpty then
    let addedIDs := addedHandles.map (fun handle => QMap.value participants handle)
    (participants, [Call.addMembers addedHandles addedIDs])
  else (participants, [])

/-- `MorseTextChannel::updateChatParticipants`. -/
def updateChatParticipants (ch : MorseTextChannel) (handles : List Nat)
    (identifiers : List String) : MorseTextChannel × List Call :=
  if handles.length ≠ identifiers.length then (ch, [])
  else
    let removed := processRemovedParticipants ch.m_participantHandles handles
    let added := processAddedParticipants removed.1 handles identifiers
    ({ ch with m_participantHandles := added.1 }, removed.2 ++ added.2)

/-- `MorseTextChannel::whenChatDetailsChanged`. -/
def whenChatDetailsChanged (ch : MorseTextChannel) (chatID : String) (handles : List Nat)
    (identifiers : List String) : MorseTextChannel × List Call :=
  if ch.m_targetID = chatID then updateChatParticipants ch handles identifiers
  else (ch, [])

/-- `MorseTextChannel::sentMessageDeliveryStatusChanged`. -/
def sentMessageDeliveryStatusChanged (ch : MorseTextChannel) (phone : String) (messageId : Nat)
    (status : TelegramNamespace.MessageDeliveryStatus) : List Call :=
  if phone ≠ ch.m_targetID then []
  else
    let switched : Option Nat :=
      match status with
      | .MessageDeliveryStatusSent => some Tp.DeliveryStatusAccepted
      | .MessageDeliveryStatusRead => some Tp.DeliveryStatusRead
      | _ => none
    match switched with
    | none => []
    | some statusFlag =>
      let token := QString.number messageId
      let header : Tp.MessagePart :=
        QMap.insert (QMap.insert (QMap.insert (QMap.insert (QMap.insert (QMap.insert []
          "message-token" (QVariant.str token))
          "message-sender" (QVariant.uint ch.m_targetHandle))
          "message-sender-id" (QVariant.str ch.m_targetID))
          "message-type" (QVariant.int Tp.ChannelTextMessageTypeDeliveryReport))
          "delivery-status" (QVariant.int statusFlag))
          "delivery-token" (QVariant.str token)
      let flags := if statusFlag = Tp.DeliveryStatusRead then Tp.MessageSendingFlagReportRead else 0
      [Call.messageSent [header] flags token]

/-- `MorseTextChannel::reactivateLocalTyping`, the slot of the timer's `timeout()`. -/
def reactivateLocalTyping (ch : MorseTextChannel) : List Call :=
  [Call.setTyping ch.m_targetID true]

/-- `MorseTextChannel::setChatState`: the timer is created on first use, the core is told
whether the state is Composing, and the timer is started or stopped accordingly. -/
def setChatState (core : CTelegramCore) (ch : MorseTextChannel) (state : Nat) :
    MorseTextChannel × List Call :=
  let timer : QTimer :=
    match ch.m_localTypingTimer with
    | some t => t
    | none => { interval := core.localTypingRecommendedRepeatInterval, active := false }
  let call := Call.setTyping ch.m_targetID (decide (state = Tp.ChannelChatStateComposing))
  if state = Tp.ChannelChatStateComposing then
    ({ ch with m_localTypingTimer := some { timer with active := true } }, [call])
  else
    ({ ch with m_localTypingTimer := some { timer with active := false } }, [call])

/-- Whether the local typing timer exists and is running. -/
def typingTimerRunning (ch : MorseTextChannel) : Bool :=
  match ch.m_localTypingTimer with
  | some t => t.active
  | none => false

end MorseTextChannel

/-! ## The chat-state machine: `setChatState` calls and timer timeouts -/

/-- A step of the typing machinery: the framework sets the chat state, or the running timer
fires. -/
inductive ChatEvent where
  | setChatState (state : Nat)
  | timeout
  deriving DecidableEq

namespace MorseTextChannel

/-- One step.  A `timeout()` is only delivered by a running timer; the timer repeats, so it
keeps running afterwards. -/
def chatStep (core : CTelegramCore) (ch : MorseTextChannel) :
    ChatEvent → Option (MorseTextChannel × List Call)
  | .setChatState state => some (setChatState core ch state)
  | .timeout => if typingTimerRunning ch then some (ch, reactivateLocalTyping ch) else none

/-- A run of steps from a channel state: the final state and all calls made, or `none` when
some step could not happen. -/
def chatRun (core : CTelegramCore) (ch : MorseTextChannel) :
    List ChatEvent → Option (MorseTextChannel × List Call)
  | [] => some (ch, [])
  | ev :: evs =>
    match chatStep core ch ev with
    | none => none
    | some (ch1, calls1) =>
      match chatRun core ch1 evs with
      | none => none
      | some (ch2, calls2) => some (ch2, calls1 ++ calls2)

end MorseTextChannel

/-! ## Sample values -/

/-- A core whose `sendMessage` returns 4711. -/
def sampleCore : CTelegramCore :=
  { sendMessage := fun _ _ => 4711, localTypingRecommendedRepeatInterval := 5000 }

/-- A freshly constructed channel with two cached participants. -/
def sampleChannel : MorseTextChannel :=
  { m_targetHandle := 7, m_selfHandle := 1, m_targetID := "chat7", m_selfID := "me",
    m_participantHandles := [(1, "r"), (2, "k")], m_localTypingTimer := none }


/-! ## Facts about `QMap` -/

namespace QMap

variable {κ α : Type}

theorem contains_iff_mem_keys [DecidableEq κ] (m : QMap κ α) (k : κ) :
    contains m k = true ↔ k ∈ keys m := by
  simp [contains, keys, List.any_eq_true]

theorem contains_eq_false_iff [DecidableEq κ] (m : QMap κ α) (k : κ) :
    contains m k = false ↔ k ∉ keys m := by
  rw [← contains_iff_mem_keys]; simp

theorem mem_keys_insert [DecidableEq κ] [QMapKey κ] (m : QMap κ α) (k : κ) (v : α) (k' : κ) :
    k' ∈ keys (insert m k v) ↔ k' = k ∨ k' ∈ keys m := by
  induction m with
  | nil => simp [insert, keys]
  | cons e rest ih =>
    unfold insert
    split
    · simp [keys]
    · split
      · rename_i heq
        simp [keys, heq]
      · simp only [keys, List.map_cons, List.mem_cons] at ih ⊢
        rw [ih]
        tauto

theorem value_nil [DecidableEq κ] [Inhabited α] (k : κ) :
    value ([] : QMap κ α) k = default := rfl

theorem value_cons [DecidableEq κ] [Inhabited α] (e : κ × α) (rest : QMap κ α) (k : κ) :
    value (e :: rest) k = if e.1 = k then e.2 else value rest k := by
  by_cases h : e.1 = k <;> simp [value, List.find?_cons, h]

theorem value_insert_self [DecidableEq κ] [QMapKey κ] [Inhabited α] (m : QMap κ α) (k : κ)
    (v : α) : value (insert m k v) k = v := by
  induction m with
  | nil => simp [insert, value_cons]
  | cons e rest ih =>
    unfold insert
    split
    · simp [value_cons]
    · split
      · simp [value_cons]
      · rename_i hne
        rw [value_cons, if_neg hne, ih]

theorem value_insert_of_ne [DecidableEq κ] [QMapKey κ] [Inhabited α] (m : QMap κ α) (k : κ)
    (v : α) (k' : κ) (h : k ≠ k') : value (insert m k v) k' = value m k' := by
  induction m with
  | nil => simp [insert, value_cons, value_nil, h]
  | cons e rest ih =>
    unfold insert
    split
    · simp [value_cons, h]
    · split
      · rename_i heq
        have h' : ¬ e.1 = k' := by rw [heq]; exact h
        simp [value_cons, h, h']
      · rw [value_cons, value_cons, ih]

theorem foldl_remove [DecidableEq κ] (removed : List κ) (m : QMap κ α) :
    removed.foldl (fun m k => remove m k) m = m.filter (fun e => !removed.contains e.1) := by
  induction removed generalizing m with
  | nil => simp
  | cons a rest ih =>
    rw [List.foldl_cons, ih]
    simp only [remove, List.filter_filter]
    apply List.filter_congr
    intro e _
    by_cases h : e.1 = a <;> simp [h, eq_comm]

theorem value_filter [DecidableEq κ] [Inhabited α] (m : QMap κ α) (p : κ → Bool) (k : κ)
    (h : p k = true) : value (m.filter (fun e => p e.1)) k = value m k := by
  induction m with
  | nil => rfl
  | cons e rest ih =>
    by_cases hk : e.1 = k
    · have : p e.1 = true := by rw [hk]; exact h
      rw [List.filter_cons, if_pos this, value_cons, value_cons, if_pos hk, if_pos hk]
    · by_cases hp : p e.1 = true
      · simp [List.filter_cons, hp, value_cons, hk, ih]
      · simp [List.filter_cons, hp, value_cons, hk, ih]

theorem keys_filter [DecidableEq κ] (m : QMap κ α) (p : κ → Bool) :
    keys (m.filter (fun e => p e.1)) = (keys m).filter p := by
  induction m with
  | nil => rfl
  | cons e rest ih =>
    by_cases hp : p e.1 = true
    · simp only [keys] at ih ⊢
      simp [List.filter_cons, hp, ih]
    · simp only [keys] at ih ⊢
      simp [List.filter_cons, hp, ih]

end QMap

/-! ## Facts about `updateChatParticipants` -/

namespace MorseTextChannel
open QMap

theorem processRemovedParticipants_map (m : QMap Nat String) (handles : List Nat) :
    (processRemovedParticipants m handles).1 = m.filter (fun e => handles.contains e.1) := by
  unfold processRemovedParticipants
  simp only []
  split
  · rw [foldl_remove]
    apply List.filter_congr
    intro e he
    have hmem : e.1 ∈ keys m := List.mem_map_of_mem Prod.fst he
    by_cases hh : e.1 ∈ handles <;> simp [hh, hmem]
  · rename_i hempty
    symm
    rw [List.filter_eq_self]
    intro e he
    have hmem : e.1 ∈ keys m := List.mem_map_of_mem Prod.fst he
    by_contra hh
    apply hempty
    have : e.1 ∈ (keys m).filter (fun handle => !handles.contains handle) := by
      rw [List.mem_filter]
      exact ⟨hmem, by simpa using hh⟩
    cases hl : (keys m).filter (fun handle => !handles.contains handle) with
    | nil => rw [hl] at this; cases this
    | cons _ _ => simp

theorem processRemovedParticipants_calls (m : QMap Nat String) (handles : List Nat) :
    (processRemovedParticipants m handles).2 =
      if (keys m).filter (fun handle => !handles.contains handle) = [] then []
      else [Call.removeMembers ((keys m).filter (fun handle => !handles.contains handle))] := by
  unfold processRemovedParticipants
  simp only []
  cases hl : (keys m).filter (fun handle => !handles.contains handle) <;> simp

theorem addedLoop_snd (previousHandles : List Nat) (handles : List Nat)
    (identifiers : List String) (m : QMap Nat String) (acc : List Nat)
    (hlen : handles.length = identifiers.length) :
    (addedLoop previousHandles handles identifiers (m, acc)).2 = acc ++ handles := by
  induction handles generalizing identifiers m acc with
  | nil => cases identifiers <;> simp [addedLoop]
  | cons h hs ih =>
    cases identifiers with
    | nil => simp at hlen
    | cons i is =>
      simp only [List.length_cons, Nat.add_right_cancel_iff] at hlen
      rw [addedLoop, ih _ _ _ hlen]
      simp

theorem addedLoop_mem_keys (previousHandles : List Nat) (handles : List Nat)
    (identifiers : List String) (m : QMap Nat String) (acc : List Nat)
    (hlen : handles.length = identifiers.length) (k : Nat) :
    k ∈ keys (addedLoop previousHandles handles identifiers (m, acc)).1 ↔
      k ∈ keys m ∨ (k ∈ handles ∧ k ∉ previousHandles) := by
  induction handles generalizing identifiers m acc with
  | nil => cases identifiers <;> simp [addedLoop]
  | cons h hs ih =>
    cases identifiers with
    | nil => simp at hlen
    | cons i is =>
      simp only [List.length_cons, Nat.add_right_cancel_iff] at hlen
      rw [addedLoop, ih _ _ _ hlen]
      by_cases hp : h ∈ previousHandles
      · have hc : previousHandles.contains h = true := by simpa using hp
        simp only [hc, Bool.not_true, Bool.false_eq_true, if_false, List.mem_cons]
        constructor
        · rintro (h1 | ⟨h1, h2⟩)
          · exact Or.inl h1
          · exact Or.inr ⟨Or.inr h1, h2⟩
        · rintro (h1 | ⟨h1 | h1, h2⟩)
          · exact Or.inl h1
          · exact absurd (h1 ▸ hp) h2
          · exact Or.inr ⟨h1, h2⟩
      · have hc : previousHandles.contains h = false := by simpa using hp
        simp only [hc, Bool.not_false, if_true, List.mem_cons, mem_keys_insert]
        constructor
        · rintro ((h1 | h1) | ⟨h1, h2⟩)
          · exact Or.inr ⟨Or.inl h1, h1 ▸ hp⟩
          · exact Or.inl h1
          · exact Or.inr ⟨Or.inr h1, h2⟩
        · rintro (h1 | ⟨h1 | h1, h2⟩)
          · exact Or.inl (Or.inr h1)
          · exact Or.inl (Or.inl h1)
          · exact Or.inr ⟨h1, h2⟩

theorem addedLoop_value_keep (previousHandles : List Nat) (handles : List Nat)
    (identifiers : List String) (m : QMap Nat String) (acc : List Nat) (k : Nat)
    (hk : k ∈ previousHandles ∨ k ∉ handles) :
    value (addedLoop previousHandles handles identifiers (m, acc)).1 k = value m k := by
  induction handles generalizing identifiers m acc with
  | nil => cases identifiers <;> simp [addedLoop]
  | cons h hs ih =>
    cases identifiers with
    | nil => simp [addedLoop]
    | cons i is =>
      have hk' : k ∈ previousHandles ∨ k ∉ hs := by
        rcases hk with hk | hk
        · exact Or.inl hk
        · exact Or.inr (fun hm => hk (List.mem_cons_of_mem _ hm))
      rw [addedLoop, ih _ _ _ hk']
      by_cases hp : h ∈ previousHandles
      · simp [hp]
      · have hc : previousHandles.contains h = false := by simpa using hp
        simp only [hc, Bool.not_false, if_true]
        apply value_insert_of_ne
        rintro rfl
        rcases hk with hk | hk
        · exact hp hk
        · exact hk (List.mem_cons_self _ _)

theorem addedLoop_value_new (previousHandles : List Nat) (handles : List Nat)
    (identifiers : List String) (m : QMap Nat String) (acc : List Nat)
    (i : Nat) (h : Nat) (id : String)
    (hi : handles[i]? = some h) (hid : identifiers[i]? = some id)
    (hnew : h ∉ previousHandles)
    (hlast : ∀ j, i < j → handles[j]? ≠ some h) :
    value (addedLoop previousHandles handles identifiers (m, acc)).1 h = id := by
  induction handles generalizing identifiers m acc i with
  | nil => simp at hi
  | cons a hs ih =>
    cases identifiers with
    | nil => simp at hid
    | cons b is =>
      rw [addedLoop]
      cases i with
      | zero =>
        simp only [List.getElem?_cons_zero, Option.some.injEq] at hi hid
        subst hi hid
        have hnot : a ∉ hs := by
          intro hm
          obtain ⟨j, hj⟩ := List.getElem?_of_mem hm
          exact hlast (j + 1) (Nat.succ_pos j) (by simpa using hj)
        rw [addedLoop_value_keep _ _ _ _ _ _ (Or.inr hnot)]
        have hc : previousHandles.contains a = false := by simpa using hnew
        simp only [hc, Bool.not_false, if_true]
        exact value_insert_self _ _ _
      | succ i' =>
        simp only [List.getElem?_cons_succ] at hi hid
        apply ih _ _ _ _ hi hid
        intro j hj
        have := hlast (j + 1) (Nat.succ_lt_succ hj)
        simpa using this

end MorseTextChannel

namespace MorseTextChannel
open QMap

theorem processAddedParticipants_map (m : QMap Nat String) (handles : List Nat)
    (identifiers : List String) :
    (processAddedParticipants m handles identifiers).1 =
      (addedLoop (keys m) handles identifiers (m, [])).1 := by
  unfold processAddedParticipants
  simp only []
  split <;> rfl

theorem processAddedParticipants_calls (m : QMap Nat String) (handles : List Nat)
    (identifiers : List String) (hlen : handles.length = identifiers.length) :
    (processAddedParticipants m handles identifiers).2 =
      if handles = [] then []
      else [Call.addMembers handles
        (handles.map (fun h => value (processAddedParticipants m handles identifiers).1 h))] := by
  rw [processAddedParticipants_map]
  unfold processAddedParticipants
  have hsnd := addedLoop_snd (keys m) handles identifiers m [] hlen
  simp only [List.nil_append] at hsnd
  simp only []
  rw [hsnd]
  cases handles <;> simp

theorem updateChatParticipants_eq (ch : MorseTextChannel) (handles : List Nat)
    (identifiers : List String) (hlen : handles.length = identifiers.length) :
    updateChatParticipants ch handles identifiers =
      ({ ch with m_participantHandles :=
          (processAddedParticipants (processRemovedParticipants ch.m_participantHandles handles).1
            handles identifiers).1 },
       (processRemovedParticipants ch.m_participantHandles handles).2 ++
          (processAddedParticipants (processRemovedParticipants ch.m_participantHandles handles).1
            handles identifiers).2) := by
  unfold updateChatParticipants
  simp [hlen]

end MorseTextChannel

/-! ## The claims about `updateChatParticipants` -/

/-- C1 (the code at the claim's own example): with the cache holding R = 1 and K = 2 and the
notification listing K = 2 and H = 3, the channel reports R as removed and then calls
add-members with BOTH handles of the notification, the cached K included, not with H alone. -/
theorem updateChatParticipants_addMembers_lists_every_handle :
    MorseTextChannel.updateChatParticipants sampleChannel [2, 3] ["k", "h"] =
      ({ sampleChannel with m_participantHandles := [(2, "k"), (3, "h")] },
       [Call.removeMembers [1], Call.addMembers [2, 3] ["k", "h"]]) := by
  decide

/-- C3: a notification whose handle and identifier lists differ in length leaves the channel
as it was and makes no call, and so does a chat-details notification for another chat. -/
theorem updateChatParticipants_ignores_malformed (ch : MorseTextChannel) (chatID : String)
    (handles : List Nat) (identifiers : List String) :
    (handles.length ≠ identifiers.length →
      MorseTextChannel.updateChatParticipants ch handles identifiers = (ch, [])) ∧
    (chatID ≠ ch.m_targetID →
      MorseTextChannel.whenChatDetailsChanged ch chatID handles identifiers = (ch, [])) := by
  constructor
  · intro h
    simp [MorseTextChannel.updateChatParticipants, h]
  · intro h
    simp [MorseTextChannel.whenChatDetailsChanged, Ne.symm h]

/-- C3 at a notification with one handle and no identifier, and at a foreign chat. -/
theorem updateChatParticipants_ignores_malformed_witness :
    MorseTextChannel.updateChatParticipants sampleChannel [3] [] = (sampleChannel, []) ∧
    MorseTextChannel.whenChatDetailsChanged sampleChannel "chat8" [3] ["h"]
      = (sampleChannel, []) :=
  ⟨(updateChatParticipants_ignores_malformed sampleChannel "chat8" [3] []).1 (by decide),
   (updateChatParticipants_ignores_malformed sampleChannel "chat8" [3] ["h"]).2 (by decide)⟩

/-- C2: for lists of equal length and a cache in key order, a remove-members call is made
exactly when some cached handle is missing from the new list; then there is one such call,
it lists each missing cached handle once and nothing else, the cache the second block starts
from is the old one without exactly those entries, and the call precedes the second block's. -/
theorem updateChatParticipants_removed (ch : MorseTextChannel) (handles : List Nat)
    (identifiers : List String) (hlen : handles.length = identifiers.length)
    (hkeys : (QMap.keys ch.m_participantHandles).Pairwise (fun a b => a < b)) :
    ((∃ c ∈ (MorseTextChannel.updateChatParticipants ch handles identifiers).2,
        c.isRemoveMembers = true) ↔
      ∃ h, QMap.contains ch.m_participantHandles h = true ∧ h ∉ handles) ∧
    ((∃ h, QMap.contains ch.m_participantHandles h = true ∧ h ∉ handles) →
      ∃ removed,
        (MorseTextChannel.updateChatParticipants ch handles identifiers).2.filter
          Call.isRemoveMembers = [Call.removeMembers removed] ∧
        removed.Nodup ∧
        ∀ h, h ∈ removed ↔ (QMap.contains ch.m_participantHandles h = true ∧ h ∉ handles)) ∧
    (MorseTextChannel.processRemovedParticipants ch.m_participantHandles handles).1 =
      ch.m_participantHandles.filter (fun e => handles.contains e.1) ∧
    MorseTextChannel.updateChatParticipants ch handles identifiers =
      ({ ch with m_participantHandles :=
          (MorseTextChannel.processAddedParticipants
            (ch.m_participantHandles.filter (fun e => handles.contains e.1))
            handles identifiers).1 },
       (MorseTextChannel.processRemovedParticipants ch.m_participantHandles handles).2 ++
        (MorseTextChannel.processAddedParticipants
            (ch.m_participantHandles.filter (fun e => handles.contains e.1))
            handles identifiers).2) := by
  have hmap := MorseTextChannel.processRemovedParticipants_map ch.m_participantHandles handles
  have hcalls := MorseTextChannel.processRemovedParticipants_calls ch.m_participantHandles handles
  have hadd := MorseTextChannel.processAddedParticipants_calls
    (ch.m_participantHandles.filter (fun e => handles.contains e.1)) handles identifiers hlen
  have heq := MorseTextChannel.updateChatParticipants_eq ch handles identifiers hlen
  rw [hmap] at heq
  have hmem : ∀ h, h ∈ (QMap.keys ch.m_participantHandles).filter
      (fun handle => !handles.contains handle) ↔
      (QMap.contains ch.m_participantHandles h = true ∧ h ∉ handles) := by
    intro h
    rw [List.mem_filter, QMap.contains_iff_mem_keys]
    simp
  have hfilter : (MorseTextChannel.updateChatParticipants ch handles identifiers).2.filter
      Call.isRemoveMembers =
      (MorseTextChannel.processRemovedParticipants ch.m_participantHandles handles).2 := by
    rw [heq]
    simp only [List.filter_append]
    rw [hadd, hcalls]
    split <;> split <;> simp [Call.isRemoveMembers]
  have hexists : (∃ c ∈ (MorseTextChannel.updateChatParticipants ch handles identifiers).2,
      c.isRemoveMembers = true) ↔
      (MorseTextChannel.updateChatParticipants ch handles identifiers).2.filter
        Call.isRemoveMembers ≠ [] := by
    rw [Ne, List.filter_eq_nil_iff]
    push_neg
    rfl
  refine ⟨?_, ?_, hmap, heq⟩
  · rw [hexists, hfilter, hcalls]
    by_cases hnil : (QMap.keys ch.m_participantHandles).filter
        (fun handle => !handles.contains handle) = []
    · rw [if_pos hnil]
      constructor
      · intro hne
        exact absurd rfl hne
      · rintro ⟨h, hh⟩
        have := (hmem h).2 hh
        rw [hnil] at this
        cases this
    · rw [if_neg hnil]
      constructor
      · intro _
        obtain ⟨h, hh⟩ := List.exists_mem_of_ne_nil _ hnil
        exact ⟨h, (hmem h).1 hh⟩
      · intro _
        exact List.cons_ne_nil _ _
  · rintro ⟨h, hh⟩
    have := (hmem h).2 hh
    have hnil : (QMap.keys ch.m_participantHandles).filter
        (fun handle => !handles.contains handle) ≠ [] := List.ne_nil_of_mem this
    refine ⟨_, ?_, ?_, hmem⟩
    · rw [hfilter, hcalls, if_neg hnil]
    · apply List.Nodup.filter
      exact hkeys.imp (fun hab => Nat.ne_of_lt hab)

/-- C2 at the sample channel, whose cached handle 1 is missing from the new list. -/
theorem updateChatParticipants_removed_witness :
    (∃ removed,
        (MorseTextChannel.updateChatParticipants sampleChannel [2, 3] ["k", "h"]).2.filter
          Call.isRemoveMembers = [Call.removeMembers removed] ∧
        removed.Nodup ∧
        ∀ h, h ∈ removed ↔
          (QMap.contains sampleChannel.m_participantHandles h = true ∧ h ∉ [2, 3])) :=
  (updateChatParticipants_removed sampleChannel [2, 3] ["k", "h"] (by decide) (by decide)).2.1
    ⟨1, by decide, by decide⟩

/-- C9 as the code has it: for lists of equal length, afterwards the cache holds exactly the
handles of the new list; a handle cached before keeps its identifier; a handle not cached
before gets the identifier at the position of its LAST occurrence in the list; and the
identifier list of an add-members call is as long as its handle list and holds, position by
position, the cached identifier of the handle. -/
theorem updateChatParticipants_cache (ch : MorseTextChannel) (handles : List Nat)
    (identifiers : List String) (hlen : handles.length = identifiers.length) :
    (∀ h, QMap.contains
        (MorseTextChannel.updateChatParticipants ch handles identifiers).1.m_participantHandles h
          = true ↔ h ∈ handles) ∧
    (∀ h, h ∈ handles → QMap.contains ch.m_participantHandles h = true →
      QMap.value
        (MorseTextChannel.updateChatParticipants ch handles identifiers).1.m_participantHandles h
        = QMap.value ch.m_participantHandles h) ∧
    (∀ (i h : Nat) (id : String), handles[i]? = some h → identifiers[i]? = some id →
      QMap.contains ch.m_participantHandles h = false →
      (∀ j, i < j → handles[j]? ≠ some h) →
      QMap.value
        (MorseTextChannel.updateChatParticipants ch handles identifiers).1.m_participantHandles h
        = id) ∧
    (∀ (hs : List Nat) (ids : List String), Call.addMembers hs ids ∈
        (MorseTextChannel.updateChatParticipants ch handles identifiers).2 →
      ids.length = hs.length ∧
      ∀ (i h : Nat), hs[i]? = some h →
        ids[i]? = some (QMap.value
          (MorseTextChannel.updateChatParticipants ch handles
            identifiers).1.m_participantHandles h)) := by
  have hmap := MorseTextChannel.processRemovedParticipants_map ch.m_participantHandles handles
  have heq := MorseTextChannel.updateChatParticipants_eq ch handles identifiers hlen
  rw [hmap] at heq
  have hadd := MorseTextChannel.processAddedParticipants_calls
    (ch.m_participantHandles.filter (fun e => handles.contains e.1)) handles identifiers hlen
  have hcalls := MorseTextChannel.processRemovedParticipants_calls ch.m_participantHandles handles
  have hfinal : (MorseTextChannel.updateChatParticipants ch handles
      identifiers).1.m_participantHandles =
      (MorseTextChannel.addedLoop
        (QMap.keys (ch.m_participantHandles.filter (fun e => handles.contains e.1)))
        handles identifiers
        (ch.m_participantHandles.filter (fun e => handles.contains e.1), [])).1 := by
    rw [heq, MorseTextChannel.processAddedParticipants_map]
  have hprev : ∀ h, h ∈ QMap.keys (ch.m_participantHandles.filter
      (fun e => handles.contains e.1)) ↔ (h ∈ QMap.keys ch.m_participantHandles ∧ h ∈ handles) := by
    intro h
    rw [QMap.keys_filter, List.mem_filter]
    simp
  refine ⟨?_, ?_, ?_, ?_⟩
  · intro h
    rw [hfinal, QMap.contains_iff_mem_keys,
      MorseTextChannel.addedLoop_mem_keys _ _ _ _ _ hlen, hprev]
    tauto
  · intro h hin hcached
    rw [QMap.contains_iff_mem_keys] at hcached
    rw [hfinal, MorseTextChannel.addedLoop_value_keep _ _ _ _ _ _
      (Or.inl ((hprev h).2 ⟨hcached, hin⟩))]
    exact QMap.value_filter _ (fun k => handles.contains k) h (by simpa using hin)
  · intro i h id hi hid hnew hlast
    rw [QMap.contains_eq_false_iff] at hnew
    rw [hfinal]
    exact MorseTextChannel.addedLoop_value_new _ _ _ _ _ i h id hi hid
      (fun hp => hnew ((hprev h).1 hp).1) hlast
  · intro hs ids hcall
    have hfin2 : (MorseTextChannel.updateChatParticipants ch handles
        identifiers).1.m_participantHandles =
        (MorseTextChannel.processAddedParticipants
          (ch.m_participantHandles.filter (fun e => handles.contains e.1))
          handles identifiers).1 := by rw [heq]
    rw [hfin2]
    rw [heq] at hcall
    simp only [List.mem_append] at hcall
    rcases hcall with hcall | hcall
    · rw [hcalls] at hcall
      split at hcall
      · cases hcall
      · simp at hcall
    · rw [hadd] at hcall
      split at hcall
      · cases hcall
      · simp only [List.mem_singleton, Call.addMembers.injEq] at hcall
        obtain ⟨rfl, rfl⟩ := hcall
        refine ⟨by simp, ?_⟩
        intro i h hi
        rw [List.getElem?_map, hi]
        rfl

/-- C9 as the code has it, for a new handle 3 listed at position 1 after the cached handle 2:
the cached 2 keeps its identifier although the notification names it differently. -/
theorem updateChatParticipants_cache_witness :
    QMap.value
      (MorseTextChannel.updateChatParticipants sampleChannel [2, 3]
        ["k2", "h"]).1.m_participantHandles 2 = QMap.value sampleChannel.m_participantHandles 2 ∧
    QMap.value
      (MorseTextChannel.updateChatParticipants sampleChannel [2, 3]
        ["k2", "h"]).1.m_participantHandles 3 = "h" ∧
    (["k", "h"].length = [2, 3].length ∧
      ∀ (i h : Nat), ([2, 3] : List Nat)[i]? = some h →
        (["k", "h"] : List String)[i]? = some (QMap.value
          (MorseTextChannel.updateChatParticipants sampleChannel [2, 3]
            ["k2", "h"]).1.m_participantHandles h)) :=
  ⟨(updateChatParticipants_cache sampleChannel [2, 3] ["k2", "h"] (by decide)).2.1 2
      (by decide) (by decide),
   (updateChatParticipants_cache sampleChannel [2, 3] ["k2", "h"] (by decide)).2.2.1 1 3 "h"
      (by decide) (by decide) (by decide)
      (fun j hj => by
        have h2 : [2, 3].length ≤ j := hj
        rw [List.getElem?_eq_none h2]
        exact fun h => Option.noConfusion h),
   (updateChatParticipants_cache sampleChannel [2, 3] ["k2", "h"] (by decide)).2.2.2
      [2, 3] ["k", "h"] (by decide)⟩

/-- C9 fails as stated: handle 5 is new and listed twice, first with identifier `a` and then
with `b`; the cache ends up with `b`, the identifier of the later position. -/
theorem updateChatParticipants_first_occurrence_counterexample :
    QMap.contains sampleChannel.m_participantHandles 5 = false ∧
    ([5, 5] : List Nat).indexOf 5 = 0 ∧
    (["a", "b"] : List String)[0]? = some "a" ∧
    QMap.value
      (MorseTextChannel.updateChatParticipants sampleChannel [5, 5]
        ["a", "b"]).1.m_participantHandles 5 = "b" := by
  decide

/-! ## Facts about the message parts the channel builds -/

namespace MorseTextChannel

theorem processReceivedMessage_out (MessageFlagOut currentMSecsSinceEpoch : Nat)
    (ch : MorseTextChannel) (contactHandle : Nat) (contactID message : String)
    (messageId flags timestamp : Nat) (hout : flags &&& MessageFlagOut ≠ 0) :
    processReceivedMessage MessageFlagOut currentMSecsSinceEpoch ch contactHandle contactID
        message messageId flags timestamp =
      [Call.messageSent
        [[("message-sender", QVariant.uint ch.m_selfHandle),
          ("message-sender-id", QVariant.str ch.m_selfID),
          ("message-sent", QVariant.uint timestamp),
          ("message-token", QVariant.str (QString.number messageId)),
          ("message-type", QVariant.int Tp.ChannelTextMessageTypeNormal)],
         [("content", QVariant.str message), ("content-type", QVariant.str "text/plain")]]
        0 (QString.number messageId)] := by
  unfold processReceivedMessage
  simp only [if_pos hout]
  rfl

theorem processReceivedMessage_in (MessageFlagOut currentMSecsSinceEpoch : Nat)
    (ch : MorseTextChannel) (contactHandle : Nat) (contactID message : String)
    (messageId flags timestamp : Nat) (hin : flags &&& MessageFlagOut = 0) :
    processReceivedMessage MessageFlagOut currentMSecsSinceEpoch ch contactHandle contactID
        message messageId flags timestamp =
      [Call.addReceivedMessage
        [[("message-received", QVariant.uint ((currentMSecsSinceEpoch / 1000) % 2 ^ 32)),
          ("message-sender", QVariant.uint contactHandle),
          ("message-sender-id", QVariant.str contactID),
          ("message-sent", QVariant.uint timestamp),
          ("message-token", QVariant.str (QString.number messageId)),
          ("message-type", QVariant.int Tp.ChannelTextMessageTypeNormal)],
         [("content", QVariant.str message), ("content-type", QVariant.str "text/plain")]]] := by
  unfold processReceivedMessage
  simp only [hin, ne_eq, not_true_eq_false, if_false]
  rfl

theorem sentMessageDeliveryStatusChanged_sent (ch : MorseTextChannel) (messageId : Nat) :
    sentMessageDeliveryStatusChanged ch ch.m_targetID messageId
        TelegramNamespace.MessageDeliveryStatus.MessageDeliveryStatusSent =
      [Call.messageSent
        [[("delivery-status", QVariant.int Tp.DeliveryStatusAccepted),
          ("delivery-token", QVariant.str (QString.number messageId)),
          ("message-sender", QVariant.uint ch.m_targetHandle),
          ("message-sender-id", QVariant.str ch.m_targetID),
          ("message-token", QVariant.str (QString.number messageId)),
          ("message-type", QVariant.int Tp.ChannelTextMessageTypeDeliveryReport)]]
        0 (QString.number messageId)] := by
  unfold sentMessageDeliveryStatusChanged
  simp only [ne_eq, not_true_eq_false, if_false]
  rfl

theorem sentMessageDeliveryStatusChanged_read (ch : MorseTextChannel) (messageId : Nat) :
    sentMessageDeliveryStatusChanged ch ch.m_targetID messageId
        TelegramNamespace.MessageDeliveryStatus.MessageDeliveryStatusRead =
      [Call.messageSent
        [[("delivery-status", QVariant.int Tp.DeliveryStatusRead),
          ("delivery-token", QVariant.str (QString.number messageId)),
          ("message-sender", QVariant.uint ch.m_targetHandle),
          ("message-sender-id", QVariant.str ch.m_targetID),
          ("message-token", QVariant.str (QString.number messageId)),
          ("message-type", QVariant.int Tp.ChannelTextMessageTypeDeliveryReport)]]
        Tp.MessageSendingFlagReportRead (QString.number messageId)] := by
  unfold sentMessageDeliveryStatusChanged
  simp only [ne_eq, not_true_eq_false, if_false]
  rfl

theorem sentMessageDeliveryStatusChanged_other (ch : MorseTextChannel) (phone : String)
    (messageId : Nat) (status : TelegramNamespace.MessageDeliveryStatus)
    (h : ¬ (phone = ch.m_targetID ∧
      (status = TelegramNamespace.MessageDeliveryStatus.MessageDeliveryStatusSent ∨
       status = TelegramNamespace.MessageDeliveryStatus.MessageDeliveryStatusRead))) :
    sentMessageDeliveryStatusChanged ch phone messageId status = [] := by
  unfold sentMessageDeliveryStatusChanged
  by_cases hp : phone = ch.m_targetID
  · cases status with
    | MessageDeliveryStatusSent => exact absurd ⟨hp, Or.inl rfl⟩ h
    | MessageDeliveryStatusRead => exact absurd ⟨hp, Or.inr rfl⟩ h
    | otherStatus code => simp [hp]
  · simp [hp]

end MorseTextChannel


/-! ## The claims about messages -/

/-- C5 fails as stated: a notification whose flags carry the outgoing bit (here the flag is
the bit of value 2 and the flags are 2) puts nothing into the inbound queue. -/
theorem processReceivedMessage_outgoing_counterexample :
    (MorseTextChannel.processReceivedMessage 2 5000 sampleChannel 9 "c" "hi" 12 2 99).filter
      Call.isAddReceivedMessage = [] := by
  decide

/-- C5 as the code has it: a notification whose flags do NOT carry the MessageFlagOut bit is
forwarded as exactly one structured message into the inbound queue, a header part followed
by one body part with content type text/plain and the message text as content. -/
theorem processReceivedMessage_incoming (MessageFlagOut currentMSecsSinceEpoch : Nat)
    (ch : MorseTextChannel) (contactHandle : Nat) (contactID message : String)
    (messageId flags timestamp : Nat) (hin : flags &&& MessageFlagOut = 0) :
    ∃ header body : Tp.MessagePart,
      MorseTextChannel.processReceivedMessage MessageFlagOut currentMSecsSinceEpoch ch
          contactHandle contactID message messageId flags timestamp =
        [Call.addReceivedMessage [header, body]] ∧
      QMap.contains header "message-token" = true ∧
      QMap.contains header "content" = false ∧
      QMap.value body "content-type" = QVariant.str "text/plain" ∧
      QMap.value body "content" = QVariant.str message := by
  refine ⟨_, _, MorseTextChannel.processReceivedMessage_in _ _ _ _ _ _ _ _ _ hin, ?_, ?_, ?_, ?_⟩
  · simp [QMap.contains]
  · simp [QMap.contains]
  · simp [QMap.value_cons]
  · simp [QMap.value_cons]

/-- C5 as the code has it, at flags 1 (the outgoing bit of value 2 clear). -/
theorem processReceivedMessage_incoming_witness :
    ∃ header body : Tp.MessagePart,
      MorseTextChannel.processReceivedMessage 2 5000 sampleChannel 9 "c" "hi" 12 1 99 =
        [Call.addReceivedMessage [header, body]] ∧
      QMap.contains header "message-token" = true ∧
      QMap.contains header "content" = false ∧
      QMap.value body "content-type" = QVariant.str "text/plain" ∧
      QMap.value body "content" = QVariant.str "hi" :=
  processReceivedMessage_incoming 2 5000 sampleChannel 9 "c" "hi" 12 1 99 (by decide)

/-- C8: with the MessageFlagOut bit set the only call is `messageSent` with flags 0 and the
decimal message id as token, the header names the channel's own handle and id as sender and
has no message-received field; with the bit clear the only call is `addReceivedMessage`, the
header names the given contact and has a message-received field.  Either way the header
carries the decimal message id as message-token, message type Normal and the given timestamp
as message-sent, and one body part follows, text/plain with the message text. -/
theorem processReceivedMessage_routes (MessageFlagOut currentMSecsSinceEpoch : Nat)
    (ch : MorseTextChannel) (contactHandle : Nat) (contactID message : String)
    (messageId flags timestamp : Nat) :
    ∃ header body : Tp.MessagePart,
      ((flags &&& MessageFlagOut ≠ 0 →
        MorseTextChannel.processReceivedMessage MessageFlagOut currentMSecsSinceEpoch ch
            contactHandle contactID message messageId flags timestamp =
          [Call.messageSent [header, body] 0 (QString.number messageId)] ∧
        QMap.value header "message-sender" = QVariant.uint ch.m_selfHandle ∧
        QMap.value header "message-sender-id" = QVariant.str ch.m_selfID ∧
        QMap.contains header "message-received" = false) ∧
       (flags &&& MessageFlagOut = 0 →
        MorseTextChannel.processReceivedMessage MessageFlagOut currentMSecsSinceEpoch ch
            contactHandle contactID message messageId flags timestamp =
          [Call.addReceivedMessage [header, body]] ∧
        QMap.value header "message-sender" = QVariant.uint contactHandle ∧
        QMap.value header "message-sender-id" = QVariant.str contactID ∧
        QMap.contains header "message-received" = true)) ∧
      QMap.value header "message-token" = QVariant.str (QString.number messageId) ∧
      QMap.value header "message-type" = QVariant.int Tp.ChannelTextMessageTypeNormal ∧
      QMap.value header "message-sent" = QVariant.uint timestamp ∧
      QMap.value body "content-type" = QVariant.str "text/plain" ∧
      QMap.value body "content" = QVariant.str message := by
  by_cases hout : flags &&& MessageFlagOut = 0
  · refine ⟨_, _, ⟨fun h => absurd hout h, fun _ =>
      ⟨MorseTextChannel.processReceivedMessage_in _ _ _ _ _ _ _ _ _ hout, ?_, ?_, ?_⟩⟩,
      ?_, ?_, ?_, ?_, ?_⟩ <;> simp [QMap.value_cons, QMap.contains]
  · refine ⟨_, _, ⟨fun _ =>
      ⟨MorseTextChannel.processReceivedMessage_out _ _ _ _ _ _ _ _ _ hout, ?_, ?_, ?_⟩,
      fun h => absurd h hout⟩, ?_, ?_, ?_, ?_, ?_⟩ <;> simp [QMap.value_cons, QMap.contains]

/-- C8 at an outgoing and at an incoming notification (the flag being the bit of value 2). -/
theorem processReceivedMessage_routes_witness :
    (MorseTextChannel.processReceivedMessage 2 5000 sampleChannel 9 "c" "hi" 12 3 99).all
      Call.isMessageSent = true ∧
    (MorseTextChannel.processReceivedMessage 2 5000 sampleChannel 9 "c" "hi" 12 1 99).all
      Call.isAddReceivedMessage = true := by
  obtain ⟨header, body, ⟨hout, _⟩, _⟩ :=
    processReceivedMessage_routes 2 5000 sampleChannel 9 "c" "hi" 12 3 99
  obtain ⟨header1, body1, ⟨_, hin⟩, _⟩ :=
    processReceivedMessage_routes 2 5000 sampleChannel 9 "c" "hi" 12 1 99
  rw [(hout (by decide)).1, (hin (by decide)).1]
  exact ⟨rfl, rfl⟩

/-- C6: a delivery report is emitted exactly when the phone is the channel's target and the
status is Sent or Read.  It is then the only call: one `messageSent` with a single header
part of type DeliveryReport whose message-token and delivery-token are the decimal message
id and whose sender is the target handle and id; for Sent the delivery status is Accepted and
the sending flags are 0, for Read the delivery status is Read and the flags are ReportRead.
In every other case no call is made. -/
theorem sentMessageDeliveryStatusChanged_report (ch : MorseTextChannel) (phone : String)
    (messageId : Nat) (status : TelegramNamespace.MessageDeliveryStatus) :
    ((∃ c ∈ MorseTextChannel.sentMessageDeliveryStatusChanged ch phone messageId status,
        c.isMessageSent = true) ↔
      (phone = ch.m_targetID ∧
        (status = TelegramNamespace.MessageDeliveryStatus.MessageDeliveryStatusSent ∨
         status = TelegramNamespace.MessageDeliveryStatus.MessageDeliveryStatusRead))) ∧
    (phone = ch.m_targetID →
      (status = TelegramNamespace.MessageDeliveryStatus.MessageDeliveryStatusSent ∨
       status = TelegramNamespace.MessageDeliveryStatus.MessageDeliveryStatusRead) →
      ∃ (header : Tp.MessagePart) (flags : Nat),
        MorseTextChannel.sentMessageDeliveryStatusChanged ch phone messageId status =
          [Call.messageSent [header] flags (QString.number messageId)] ∧
        QMap.value header "message-type" = QVariant.int Tp.ChannelTextMessageTypeDeliveryReport ∧
        QMap.value header "message-token" = QVariant.str (QString.number messageId) ∧
        QMap.value header "delivery-token" = QVariant.str (QString.number messageId) ∧
        QMap.value header "message-sender" = QVariant.uint ch.m_targetHandle ∧
        QMap.value header "message-sender-id" = QVariant.str ch.m_targetID ∧
        (status = TelegramNamespace.MessageDeliveryStatus.MessageDeliveryStatusSent →
          QMap.value header "delivery-status" = QVariant.int Tp.DeliveryStatusAccepted ∧
          flags = 0) ∧
        (status = TelegramNamespace.MessageDeliveryStatus.MessageDeliveryStatusRead →
          QMap.value header "delivery-status" = QVariant.int Tp.DeliveryStatusRead ∧
          flags = Tp.MessageSendingFlagReportRead)) ∧
    (¬ (phone = ch.m_targetID ∧
        (status = TelegramNamespace.MessageDeliveryStatus.MessageDeliveryStatusSent ∨
         status = TelegramNamespace.MessageDeliveryStatus.MessageDeliveryStatusRead)) →
      MorseTextChannel.sentMessageDeliveryStatusChanged ch phone messageId status = []) := by
  refine ⟨?_, ?_, MorseTextChannel.sentMessageDeliveryStatusChanged_other ch phone messageId status⟩
  · constructor
    · rintro ⟨c, hc, _⟩
      by_contra hcon
      rw [MorseTextChannel.sentMessageDeliveryStatusChanged_other ch phone messageId status hcon]
        at hc
      cases hc
    · rintro ⟨rfl, rfl | rfl⟩
      · rw [MorseTextChannel.sentMessageDeliveryStatusChanged_sent]
        exact ⟨_, List.mem_singleton.2 rfl, rfl⟩
      · rw [MorseTextChannel.sentMessageDeliveryStatusChanged_read]
        exact ⟨_, List.mem_singleton.2 rfl, rfl⟩
  · rintro rfl (rfl | rfl)
    · refine ⟨_, _, MorseTextChannel.sentMessageDeliveryStatusChanged_sent ch messageId,
        ?_, ?_, ?_, ?_, ?_, ?_, ?_⟩ <;> simp [QMap.value_cons]
    · refine ⟨_, _, MorseTextChannel.sentMessageDeliveryStatusChanged_read ch messageId,
        ?_, ?_, ?_, ?_, ?_, ?_, ?_⟩ <;> simp [QMap.value_cons]

/-- C6 at a Read status for the channel's own target, and at a foreign phone. -/
theorem sentMessageDeliveryStatusChanged_report_witness :
    (∃ (header : Tp.MessagePart) (flags : Nat),
        MorseTextChannel.sentMessageDeliveryStatusChanged sampleChannel "chat7" 12
            TelegramNamespace.MessageDeliveryStatus.MessageDeliveryStatusRead =
          [Call.messageSent [header] flags "12"] ∧
        QMap.value header "delivery-status" = QVariant.int Tp.DeliveryStatusRead ∧
        flags = Tp.MessageSendingFlagReportRead) ∧
    MorseTextChannel.sentMessageDeliveryStatusChanged sampleChannel "chat8" 12
        TelegramNamespace.MessageDeliveryStatus.MessageDeliveryStatusRead = [] := by
  constructor
  · obtain ⟨header, flags, hcall, _, _, _, _, _, _, hread⟩ :=
      (sentMessageDeliveryStatusChanged_report sampleChannel "chat7" 12
        TelegramNamespace.MessageDeliveryStatus.MessageDeliveryStatusRead).2.1
        (by decide) (Or.inr rfl)
    exact ⟨header, flags, hcall, (hread rfl).1, (hread rfl).2⟩
  · exact (sentMessageDeliveryStatusChanged_report sampleChannel "chat8" 12
      TelegramNamespace.MessageDeliveryStatus.MessageDeliveryStatusRead).2.2 (by decide)

/-- C4: `sendMessageCallback` makes exactly one call, the core's `sendMessage` to the
channel's target, and returns the decimal string of the id that call gave back.  The content
sent is that of the first part in list order that has a content type reading text/plain and
a content key (parts before it that lack either are passed over, parts after it are not
looked at), and it is empty when no part qualifies. -/
theorem sendMessageCallback_forwards_first_plain_text (core : CTelegramCore)
    (ch : MorseTextChannel) (messageParts : Tp.MessagePartList) (flags : Nat) :
    ∃ content : String,
      MorseTextChannel.sendMessageCallback core ch messageParts flags =
        (QString.number (core.sendMessage ch.m_targetID content),
         [Call.sendMessage ch.m_targetID content]) ∧
      (∀ (i : Nat) (part : Tp.MessagePart), messageParts[i]? = some part →
        (QMap.contains part "content-type" = true ∧
          (QMap.value part "content-type").toString = "text/plain" ∧
          QMap.contains part "content" = true) →
        (∀ (j : Nat) (earlier : Tp.MessagePart), j < i → messageParts[j]? = some earlier →
          ¬ (QMap.contains earlier "content-type" = true ∧
            (QMap.value earlier "content-type").toString = "text/plain" ∧
            QMap.contains earlier "content" = true)) →
        content = (QMap.value part "content").toString) ∧
      ((∀ part ∈ messageParts,
          ¬ (QMap.contains part "content-type" = true ∧
            (QMap.value part "content-type").toString = "text/plain" ∧
            QMap.contains part "content" = true)) →
        content = "") := by
  have hplain : ∀ part : Tp.MessagePart, MorseTextChannel.isPlainTextPart part = true ↔
      (QMap.contains part "content-type" = true ∧
        (QMap.value part "content-type").toString = "text/plain" ∧
        QMap.contains part "content" = true) := by
    intro part
    simp [MorseTextChannel.isPlainTextPart, and_assoc]
  refine ⟨MorseTextChannel.plainTextContent messageParts, rfl, ?_, ?_⟩
  · intro i part hi hpart hearlier
    rw [← hplain] at hpart
    induction messageParts generalizing i with
    | nil => simp at hi
    | cons p rest ih =>
      cases i with
      | zero =>
        simp only [List.getElem?_cons_zero, Option.some.injEq] at hi
        subst hi
        simp [MorseTextChannel.plainTextContent, hpart]
      | succ i' =>
        have hp : ¬ MorseTextChannel.isPlainTextPart p = true := by
          rw [hplain]
          exact hearlier 0 p (Nat.succ_pos _) (by simp)
        simp only [MorseTextChannel.plainTextContent, hp, if_false]
        simp only [List.getElem?_cons_succ] at hi
        apply ih i' hi
        intro j earlier hj hje
        exact hearlier (j + 1) earlier (Nat.succ_lt_succ hj) (by simpa using hje)
  · intro hnone
    induction messageParts with
    | nil => rfl
    | cons p rest ih =>
      have hp : ¬ MorseTextChannel.isPlainTextPart p = true := by
        rw [hplain]
        exact hnone p (List.mem_cons_self _ _)
      simp only [MorseTextChannel.plainTextContent, hp, if_false]
      exact ih (fun part hmem => hnone part (List.mem_cons_of_mem _ hmem))

/-- C4 at a message of three parts: one without content type, then two plain-text parts. -/
theorem sendMessageCallback_forwards_first_plain_text_witness :
    MorseTextChannel.sendMessageCallback sampleCore sampleChannel
        [[("content", QVariant.str "x")],
         [("content", QVariant.str "hi"), ("content-type", QVariant.str "text/plain")],
         [("content", QVariant.str "later"), ("content-type", QVariant.str "text/plain")]] 0 =
      ("4711", [Call.sendMessage "chat7" "hi"]) := by
  obtain ⟨content, hcall, hfirst, _⟩ :=
    sendMessageCallback_forwards_first_plain_text sampleCore sampleChannel
      [[("content", QVariant.str "x")],
       [("content", QVariant.str "hi"), ("content-type", QVariant.str "text/plain")],
       [("content", QVariant.str "later"), ("content-type", QVariant.str "text/plain")]] 0
  have hc : content = "hi" :=
    hfirst 1 [("content", QVariant.str "hi"), ("content-type", QVariant.str "text/plain")]
      (by decide) (by decide)
      (fun j earlier hj hje => by
        have hj0 : j = 0 := by omega
        subst hj0
        simp only [List.getElem?_cons_zero, Option.some.injEq] at hje
        subst hje
        decide)
  rw [hcall, hc]
  decide

/-! ## Decimal tokens -/

namespace QString

theorem digitChar_spec : ∀ k, k < 10 →
    (Nat.digitChar k).isDigit = true ∧ (Nat.digitChar k).toNat - '0'.toNat = k := by
  decide

theorem isSpace_of_isDigit (c : Char) (h : c.isDigit = true) : isSpace c = false := by
  have hrange : 48 ≤ c.toNat ∧ c.toNat ≤ 57 := by
    simp only [Char.isDigit, Bool.and_eq_true, decide_eq_true_eq] at h
    exact h
  simp only [isSpace, Bool.or_eq_false_iff, Bool.and_eq_false_iff, decide_eq_false_iff_not]
  omega

theorem ne_plus_of_isDigit (c : Char) (h : c.isDigit = true) : c ≠ '+' := by
  rintro rfl
  revert h
  decide

theorem toDigitsCore_all_digits (fuel n : Nat) (ds : List Char)
    (hds : ∀ c ∈ ds, c.isDigit = true) :
    ∀ c ∈ Nat.toDigitsCore 10 fuel n ds, c.isDigit = true := by
  induction fuel generalizing n ds with
  | zero => simpa [Nat.toDigitsCore] using hds
  | succ fuel ih =>
    have hd : (Nat.digitChar (n % 10)).isDigit = true :=
      (digitChar_spec (n % 10) (Nat.mod_lt _ (by decide))).1
    have hcons : ∀ c ∈ Nat.digitChar (n % 10) :: ds, c.isDigit = true := by
      intro c hc
      rcases List.mem_cons.1 hc with rfl | hc
      · exact hd
      · exact hds c hc
    unfold Nat.toDigitsCore
    simp only []
    split
    · exact hcons
    · exact ih _ _ hcons

theorem toDigitsCore_ne_nil (fuel n : Nat) (ds : List Char) (hds : ds ≠ []) :
    Nat.toDigitsCore 10 fuel n ds ≠ [] := by
  induction fuel generalizing n ds with
  | zero => simpa [Nat.toDigitsCore] using hds
  | succ fuel ih =>
    unfold Nat.toDigitsCore
    simp only []
    split
    · exact List.cons_ne_nil _ _
    · exact ih _ _ (List.cons_ne_nil _ _)

theorem foldl_digits (a : Nat) (cs : List Char) :
    cs.foldl (fun acc c => acc * 10 + (c.toNat - '0'.toNat)) a =
      a * 10 ^ cs.length + digitsValue cs := by
  unfold digitsValue
  induction cs generalizing a with
  | nil => simp
  | cons c cs ih =>
    simp only [List.foldl_cons, List.length_cons]
    rw [ih (a * 10 + (c.toNat - '0'.toNat)), ih (0 * 10 + (c.toNat - '0'.toNat))]
    ring

theorem digitsValue_cons (c : Char) (cs : List Char) :
    digitsValue (c :: cs) = (c.toNat - '0'.toNat) * 10 ^ cs.length + digitsValue cs := by
  have := foldl_digits (0 * 10 + (c.toNat - '0'.toNat)) cs
  simp only [Nat.zero_mul, Nat.zero_add] at this
  rw [← this]
  simp [digitsValue]

theorem digitsValue_toDigitsCore (fuel n : Nat) (ds : List Char) (hfuel : n < fuel) :
    digitsValue (Nat.toDigitsCore 10 fuel n ds) = n * 10 ^ ds.length + digitsValue ds := by
  induction fuel generalizing n ds with
  | zero => omega
  | succ fuel ih =>
    have hd : (Nat.digitChar (n % 10)).toNat - '0'.toNat = n % 10 :=
      (digitChar_spec (n % 10) (Nat.mod_lt _ (by decide))).2
    unfold Nat.toDigitsCore
    simp only []
    split
    · rename_i hzero
      rw [digitsValue_cons, hd]
      have : n % 10 = n := by omega
      rw [this]
    · rename_i hnz
      have hlt : n / 10 < fuel := by omega
      rw [ih _ _ hlt, digitsValue_cons, hd, List.length_cons, pow_succ]
      have hn : n = 10 * (n / 10) + n % 10 := (Nat.div_add_mod n 10).symm
      generalize n / 10 = q at *
      generalize n % 10 = r at *
      subst hn
      ring

theorem dropWhile_isSpace_digits (cs : List Char) (h : ∀ c ∈ cs, c.isDigit = true) :
    cs.dropWhile isSpace = cs := by
  cases cs with
  | nil => rfl
  | cons c cs =>
    have := isSpace_of_isDigit c (h c (List.mem_cons_self _ _))
    simp [List.dropWhile, this]

theorem toUInt_digits (cs : List Char) (hne : cs ≠ []) (hdig : ∀ c ∈ cs, c.isDigit = true)
    (hfit : digitsValue cs < 2 ^ 32) : toUInt (String.mk cs) = digitsValue cs := by
  have hrev : ∀ c ∈ cs.reverse, c.isDigit = true := fun c hc => hdig c (List.mem_reverse.1 hc)
  have hsign : dropPlusSign cs = cs := by
    cases cs with
    | nil => rfl
    | cons c rest =>
      have hplus := ne_plus_of_isDigit c (hdig c (List.mem_cons_self _ _))
      unfold dropPlusSign
      split
      · rename_i heq
        simp only [List.cons.injEq] at heq
        exact absurd heq.1 hplus
      · rfl
  have hall : cs.all Char.isDigit = true := by
    rw [List.all_eq_true]
    exact hdig
  have hempty : cs.isEmpty = false := by
    cases cs with
    | nil => exact absurd rfl hne
    | cons _ _ => rfl
  unfold toUInt
  simp only [dropWhile_isSpace_digits cs hdig, dropWhile_isSpace_digits cs.reverse hrev,
    List.reverse_reverse, hsign, hall, hempty, hfit]
  simp

theorem toDigits_ne_nil (n : Nat) : Nat.toDigits 10 n ≠ [] := by
  unfold Nat.toDigits Nat.toDigitsCore
  simp only []
  split
  · exact List.cons_ne_nil _ _
  · exact toDigitsCore_ne_nil _ _ _ (List.cons_ne_nil _ _)

/-- The unsigned 32-bit numbers come back from their decimal strings. -/
theorem toUInt_number (n : Nat) (h : n < 2 ^ 32) : toUInt (number n) = n := by
  have hval : digitsValue (Nat.toDigits 10 n) = n := by
    unfold Nat.toDigits
    rw [digitsValue_toDigitsCore _ _ _ (Nat.lt_succ_self n)]
    simp [digitsValue]
  have hdig : ∀ c ∈ Nat.toDigits 10 n, c.isDigit = true :=
    toDigitsCore_all_digits _ _ _ (by simp)
  unfold number
  rw [toUInt_digits _ (toDigits_ne_nil n) hdig (by rw [hval]; exact h), hval]

end QString

/-- C10: for a 32-bit message id, `processReceivedMessage` makes one call whose first part,
the header, carries a string as message-token, and `messageAcknowledgedCallback` on that
string calls the core's `setMessageRead` once, with the channel's target and the same id. -/
theorem message_token_round_trip (MessageFlagOut currentMSecsSinceEpoch : Nat)
    (ch : MorseTextChannel) (contactHandle : Nat) (contactID message : String)
    (messageId flags timestamp : Nat) (hid : messageId < 2 ^ 32) :
    ∃ (token : String) (header : Tp.MessagePart) (body : Tp.MessagePartList),
      (MorseTextChannel.processReceivedMessage MessageFlagOut currentMSecsSinceEpoch ch
            contactHandle contactID message messageId flags timestamp =
          [Call.addReceivedMessage (header :: body)] ∨
        MorseTextChannel.processReceivedMessage MessageFlagOut currentMSecsSinceEpoch ch
            contactHandle contactID message messageId flags timestamp =
          [Call.messageSent (header :: body) 0 token]) ∧
      QMap.value header "message-token" = QVariant.str token ∧
      token = QString.number messageId ∧
      MorseTextChannel.messageAcknowledgedCallback ch token =
        [Call.setMessageRead ch.m_targetID messageId] := by
  have hack : MorseTextChannel.messageAcknowledgedCallback ch (QString.number messageId) =
      [Call.setMessageRead ch.m_targetID messageId] := by
    unfold MorseTextChannel.messageAcknowledgedCallback
    rw [QString.toUInt_number messageId hid]
  by_cases hout : flags &&& MessageFlagOut = 0
  · exact ⟨_, _, _, Or.inl (MorseTextChannel.processReceivedMessage_in _ _ _ _ _ _ _ _ _ hout),
      by simp [QMap.value_cons], rfl, hack⟩
  · exact ⟨_, _, _, Or.inr (MorseTextChannel.processReceivedMessage_out _ _ _ _ _ _ _ _ _ hout),
      by simp [QMap.value_cons], rfl, hack⟩

/-- C10 at the largest 32-bit message id. -/
theorem message_token_round_trip_witness :
    ∃ (token : String) (header : Tp.MessagePart) (body : Tp.MessagePartList),
      (MorseTextChannel.processReceivedMessage 2 5000 sampleChannel 9 "c" "hi" 4294967295 1 99 =
          [Call.addReceivedMessage (header :: body)] ∨
        MorseTextChannel.processReceivedMessage 2 5000 sampleChannel 9 "c" "hi" 4294967295 1 99 =
          [Call.messageSent (header :: body) 0 token]) ∧
      QMap.value header "message-token" = QVariant.str token ∧
      token = QString.number 4294967295 ∧
      MorseTextChannel.messageAcknowledgedCallback sampleChannel token =
        [Call.setMessageRead sampleChannel.m_targetID 4294967295] :=
  message_token_round_trip 2 5000 sampleChannel 9 "c" "hi" 4294967295 1 99 (by decide)

/-! ## The typing timer -/

namespace MorseTextChannel

theorem setChatState_calls (core : CTelegramCore) (ch : MorseTextChannel) (state : Nat) :
    (setChatState core ch state).2 =
      [Call.setTyping ch.m_targetID (decide (state = Tp.ChannelChatStateComposing))] := by
  unfold setChatState
  simp only []
  split <;> rfl

theorem setChatState_timer (core : CTelegramCore) (ch : MorseTextChannel) (state : Nat) :
    typingTimerRunning (setChatState core ch state).1 = true ↔
      state = Tp.ChannelChatStateComposing := by
  unfold setChatState
  simp only []
  split
  · rename_i h
    simp [typingTimerRunning, h]
  · rename_i h
    simp [typingTimerRunning, h]

theorem chatRun_timeout_after_composing (core : CTelegramCore) (events : List ChatEvent) :
    ∀ (ch : MorseTextChannel), (chatRun core ch events).isSome = true →
    ∀ (before after : List ChatEvent), events = before ++ ChatEvent.timeout :: after →
      (typingTimerRunning ch = true ∧ ∀ e ∈ before, e = ChatEvent.timeout) ∨
      ∃ (earlier timeouts : List ChatEvent),
        before = earlier ++ ChatEvent.setChatState Tp.ChannelChatStateComposing :: timeouts ∧
        ∀ e ∈ timeouts, e = ChatEvent.timeout := by
  induction events with
  | nil =>
    intro ch _ before after hsplit
    cases before <;> simp at hsplit
  | cons ev rest ih =>
    intro ch hrun before after hsplit
    cases hstep : chatStep core ch ev with
    | none => simp [chatRun, hstep] at hrun
    | some r =>
      obtain ⟨ch1, calls1⟩ := r
      have hrest : (chatRun core ch1 rest).isSome = true := by
        cases hr : chatRun core ch1 rest with
        | none => simp [chatRun, hstep, hr] at hrun
        | some _ => rfl
      cases before with
      | nil =>
        simp only [List.nil_append, List.cons.injEq] at hsplit
        obtain ⟨rfl, _⟩ := hsplit
        left
        refine ⟨?_, by simp⟩
        by_contra hoff
        simp [chatStep, hoff] at hstep
      | cons b before1 =>
        simp only [List.cons_append, List.cons.injEq] at hsplit
        obtain ⟨rfl, hsplit1⟩ := hsplit
        rcases ih ch1 hrest before1 after hsplit1 with ⟨hrunning, hall⟩ | ⟨earlier, timeouts, hb, hall⟩
        · cases ev with
          | timeout =>
            left
            have hon : typingTimerRunning ch = true := by
              by_contra hoff
              simp [chatStep, hoff] at hstep
            refine ⟨hon, ?_⟩
            intro e he
            rcases List.mem_cons.1 he with rfl | he
            · rfl
            · exact hall e he
          | setChatState state =>
            right
            simp only [chatStep, Option.some.injEq] at hstep
            have hch1 : ch1 = (setChatState core ch state).1 := by rw [hstep]
            rw [hch1, setChatState_timer] at hrunning
            exact ⟨[], before1, by rw [hrunning]; rfl, hall⟩
        · right
          exact ⟨ev :: earlier, timeouts, by rw [hb]; rfl, hall⟩

end MorseTextChannel

/-- C7: every `setChatState` makes exactly one call, `setTyping` on the core with the target
and whether the state is Composing, and afterwards the typing timer runs exactly when the
state is Composing; a timeout, which can only come from the running timer, makes exactly one
call `setTyping(target, true)` and leaves the channel as it is.  Hence in every run of
`setChatState` calls and timeouts that starts with the timer not running, each timeout is
preceded by a `setChatState` to Composing with nothing but timeouts in between. -/
theorem setChatState_typing_timer (core : CTelegramCore) (ch : MorseTextChannel) :
    (∀ state : Nat,
      (MorseTextChannel.setChatState core ch state).2 =
        [Call.setTyping ch.m_targetID (decide (state = Tp.ChannelChatStateComposing))] ∧
      (MorseTextChannel.typingTimerRunning (MorseTextChannel.setChatState core ch state).1 = true ↔
        state = Tp.ChannelChatStateComposing)) ∧
    (∀ result, MorseTextChannel.chatStep core ch ChatEvent.timeout = some result →
      MorseTextChannel.typingTimerRunning ch = true ∧
      result = (ch, [Call.setTyping ch.m_targetID true])) ∧
    (∀ events : List ChatEvent,
      MorseTextChannel.typingTimerRunning ch = false →
      (MorseTextChannel.chatRun core ch events).isSome = true →
      ∀ (before after : List ChatEvent), events = before ++ ChatEvent.timeout :: after →
        ∃ (earlier timeouts : List ChatEvent),
          before = earlier ++ ChatEvent.setChatState Tp.ChannelChatStateComposing :: timeouts ∧
          ∀ e ∈ timeouts, e = ChatEvent.timeout) := by
  refine ⟨fun state => ⟨MorseTextChannel.setChatState_calls core ch state,
    MorseTextChannel.setChatState_timer core ch state⟩, ?_, ?_⟩
  · intro result hstep
    by_cases hon : MorseTextChannel.typingTimerRunning ch = true
    · simp only [MorseTextChannel.chatStep, hon, if_true, Option.some.injEq] at hstep
      exact ⟨hon, hstep.symm⟩
    · simp [MorseTextChannel.chatStep, hon] at hstep
  · intro events hoff hrun before after hsplit
    rcases MorseTextChannel.chatRun_timeout_after_composing core events ch hrun before after hsplit
      with ⟨hon, _⟩ | h
    · rw [hoff] at hon
      cases hon
    · exact h

/-- C7 at the run Composing, timeout, Active from a fresh channel: the timeout is possible
and follows the Composing; the run Active, timeout is not possible. -/
theorem setChatState_typing_timer_witness :
    (∃ (earlier timeouts : List ChatEvent),
      [ChatEvent.setChatState 4] =
        earlier ++ ChatEvent.setChatState Tp.ChannelChatStateComposing :: timeouts ∧
      ∀ e ∈ timeouts, e = ChatEvent.timeout) ∧
    MorseTextChannel.chatRun sampleCore sampleChannel
      [ChatEvent.setChatState 2, ChatEvent.timeout] = none :=
  ⟨(setChatState_typing_timer sampleCore sampleChannel).2.2
      [ChatEvent.setChatState 4, ChatEvent.timeout, ChatEvent.setChatState 2]
      (by decide) (by decide) [ChatEvent.setChatState 4] [ChatEvent.setChatState 2] rfl,
   by decide⟩

/-! ## The key order of the participant cache is kept -/

namespace MorseTextChannel
open QMap

theorem insert_keeps_key_order (m : QMap Nat String) (k : Nat) (v : String)
    (h : (keys m).Pairwise (fun a b => a < b)) :
    (keys (QMap.insert m k v)).Pairwise (fun a b => a < b) := by
  induction m with
  | nil => simp [QMap.insert, keys]
  | cons e rest ih =>
    have hcons : (e.1 :: keys rest).Pairwise (fun a b => a < b) := h
    rw [List.pairwise_cons] at hcons
    unfold QMap.insert
    split
    · rename_i hlt
      have hlt' : k < e.1 := by simpa [QMapKey.lessThan] using hlt
      show (k :: e.1 :: keys rest).Pairwise (fun a b => a < b)
      rw [List.pairwise_cons]
      refine ⟨?_, h⟩
      intro x hx
      rcases List.mem_cons.1 hx with rfl | hx
      · exact hlt'
      · exact Nat.lt_trans hlt' (hcons.1 x hx)
    · split
      · rename_i heq
        show (k :: keys rest).Pairwise (fun a b => a < b)
        rw [← heq]
        exact h
      · rename_i hnlt hne
        have hgt : e.1 < k := by
          have : ¬ k < e.1 := by simpa [QMapKey.lessThan] using hnlt
          omega
        show (e.1 :: keys (QMap.insert rest k v)).Pairwise (fun a b => a < b)
        rw [List.pairwise_cons]
        refine ⟨?_, ih hcons.2⟩
        intro x hx
        rcases (mem_keys_insert rest k v x).1 hx with rfl | hx
        · exact hgt
        · exact hcons.1 x hx

theorem addedLoop_keeps_key_order (previousHandles handles : List Nat)
    (identifiers : List String) (m : QMap Nat String) (acc : List Nat)
    (h : (keys m).Pairwise (fun a b => a < b)) :
    (keys (addedLoop previousHandles handles identifiers (m, acc)).1).Pairwise
      (fun a b => a < b) := by
  induction handles generalizing identifiers m acc with
  | nil => cases identifiers <;> simpa [addedLoop] using h
  | cons a hs ih =>
    cases identifiers with
    | nil => simpa [addedLoop] using h
    | cons b is =>
      rw [addedLoop]
      apply ih
      split
      · exact insert_keeps_key_order m a b h
      · exact h

/-- The cache of a channel stays in key order under `updateChatParticipants`. -/
theorem updateChatParticipants_keeps_key_order (ch : MorseTextChannel) (handles : List Nat)
    (identifiers : List String)
    (h : (keys ch.m_participantHandles).Pairwise (fun a b => a < b)) :
    (keys (updateChatParticipants ch handles identifiers).1.m_participantHandles).Pairwise
      (fun a b => a < b) := by
  by_cases hlen : handles.length = identifiers.length
  · rw [updateChatParticipants_eq ch handles identifiers hlen, processAddedParticipants_map,
      processRemovedParticipants_map]
    apply addedLoop_keeps_key_order
    rw [keys_filter]
    exact h.filter _
  · simp only [updateChatParticipants, hlen, ne_eq, not_false_eq_true, if_true]
    exact h

end MorseTextChannel
